import Mathlib

/-!
# Verification of the Ebola-data aggregation pipeline (makemira.py)

Shallow embedding of the aggregation script `makemira.py`.  CSV rows are
modelled as `List String` (one string per field, as produced by Python's
`csv.reader`); Python `row[i]` indexing is modelled by `pyGet` (negative
indices wrap as in Python, out-of-range raises, modelled as `none`); a Python
exception aborting the run is modelled by an `Option`-valued function
returning `none`.  Python's single-character `str.split` is modelled by
`pySplit`, `int(...)` by `pyInt?` (sign and digits), and `float(...)` on the
numeric viral-load strings by an abstract parse parameter `pf : String → Option ℚ`
(`none` = `ValueError`).  `math.log10` composed with `1 + _` is kept abstract
as a parameter `t : ℚ → ℚ` applied to `1 + v`, since both the code and the
spec apply the very same transform; no claim depends on the numeric value of
the logarithm itself.

Output cells are modelled by `Cell`: `Cell.s v` is a raw string cell (the
empty string is rendered as the missing sentinel `\x5cN` by `save_data`),
`Cell.q v` is the cell `str(fval)` printed from a float (never empty), and
`Cell.missing` is the literal sentinel token `"\x5cN"` appended by the
padding code.
-/

set_option autoImplicit false

namespace Makemira

/-! ## Python-level helpers -/

/-- Split a list of characters on a single-character separator, mirroring
Python `str.split(sep)` for one-character `sep` (the only kind the script
uses: `";"`, `":"`, `"."`). -/
def splitOnChar (sep : Char) : List Char → List (List Char)
  | [] => [[]]
  | c :: cs =>
    match splitOnChar sep cs with
    | [] => [[c]]
    | h :: t => if c = sep then [] :: h :: t else (c :: h) :: t

/-- Python `s.split(sep)` for a one-character separator. -/
def pySplit (sep : Char) (s : String) : List String :=
  (splitOnChar sep s.data).map (fun l => ⟨l⟩)

/-- Digits-only parse used by `pyInt?`. -/
def parseNatAcc (acc : ℕ) : List Char → Option ℕ
  | [] => some acc
  | c :: cs => if c.isDigit then parseNatAcc (10 * acc + (c.toNat - 48)) cs else none

/-- Python `int(s)` on an optional minus sign followed by digits (`none` =
`ValueError`).  Python additionally strips whitespace and accepts a plus
sign; the dictionary files exercise neither. -/
def pyInt? (s : String) : Option Int :=
  match s.data with
  | [] => none
  | '-' :: cs =>
    if cs = [] then none else (parseNatAcc 0 cs).map (fun n => -(n : Int))
  | cs => (parseNatAcc 0 cs).map (fun n => (n : Int))

/-- Python `row[i]` on a list, `Int` index: negative indices count from the
end, out-of-range is an `IndexError` (`none`). -/
def pyGet {α : Type} (l : List α) (i : Int) : Option α :=
  if 0 ≤ i then l[i.toNat]?
  else
    let j : Int := (l.length : Int) + i
    if 0 ≤ j then l[j.toNat]? else none

/-- First-match association-list lookup; new bindings are consed to the
front, so this realizes Python-dict `d[k] = v` overwrite semantics. -/
def alist_lookup {α : Type} : List (String × α) → String → Option α
  | [], _ => none
  | e :: m, k => if e.1 = k then some e.2 else alist_lookup m k

/-- Monadic map over `Option`, by explicit recursion: a loop whose body may
raise, aborting the whole loop. -/
def optMapM {α β : Type} (f : α → Option β) : List α → Option (List β)
  | [] => some []
  | a :: l =>
    match f a, optMapM f l with
    | some b, some l' => some (b :: l')
    | _, _ => none

/-- Python truthiness of a variable that holds either `None` or a list:
`None` and `[]` are falsy. -/
def truthyOptList {α : Type} : Option (List α) → Bool
  | some (_ :: _) => true
  | _ => false

/-! ## Data model: cells, readings, patient records -/

/-- One output cell of the Mirador wide table (see the file header). -/
inductive Cell where
  | s : String → Cell
  | q : ℚ → Cell
  | missing : Cell
deriving DecidableEq, Repr

/-- One master-table qPCR entry `[idx, date, vload]` as stored by
`load_master` (all three fields raw strings from the CSV). -/
structure QReading where
  idx : String
  date : String
  value : String
deriving DecidableEq, Repr

/-- A qPCR entry after `add_qpcr_data`'s in-place update `qpcr[2] = str(fval)`:
the value slot now holds a `Cell` (either the printed float or the untouched
empty string). -/
structure MReading where
  idx : String
  date : String
  value : Cell
deriving DecidableEq, Repr

/-- The per-patient record of `src_data` (`load_master` creates it;
`caseRow` models the Python key `"case"`, a Lean keyword). -/
structure PatientData where
  group : String
  outcome : Option String
  sex : Option String
  demo : Option (List String)
  caseRow : Option (List String)
  pico : Option (List (List String))
  qpcr : List QReading
deriving DecidableEq, Repr

/-- `src_data`: an insertion-ordered dictionary patient-id → record. -/
abbrev Store := List (String × PatientData)

/-- The ordered key list of the store (Python `for id in src_data`). -/
def storeKeys (s : Store) : List String := s.map Prod.fst

/-- First-match lookup in the store (`id in src_data` / `src_data[id]`). -/
def store_lookup : Store → String → Option PatientData
  | [], _ => none
  | e :: s, id => if e.1 = id then some e.2 else store_lookup s id

/-- Pointwise update of the (unique) entry with the given key. -/
def store_update (s : Store) (id : String) (f : PatientData → PatientData) : Store :=
  s.map (fun e => if e.1 = id then (e.1, f e.2) else e)

/-! ## Variable dictionary (`load_dict`, lines 196-213) -/

/-- The loop building `idict` from the semicolon-separated parts of the
range string: `idict = {"":""}` seeded, then for every non-empty part
`[value, key] = p.split(":")` (a `ValueError`, `none`, unless the split has
exactly two fields) and `idict[key] = value`. -/
def build_idict_aux (m : List (String × String)) : List String → Option (List (String × String))
  | [] => some m
  | p :: ps =>
    if p = "" then build_idict_aux m ps
    else
      match pySplit ':' p with
      | [value, key] => build_idict_aux ((key, value) :: m) ps
      | _ => none

/-- `idict` built from a raw range string `rstr` (lines 205-211). -/
def build_idict (rstr : String) : Option (List (String × String)) :=
  build_idict_aux [("", "")] (pySplit ';' rstr)

/-- One entry of the variable dictionary (`info` in `load_dict`); `alias_`
models the Python key `"alias"` and `type_` the key `"type"` (both Lean
keywords/commands). -/
structure DictEntry where
  name : String
  alias_ : String
  group : String
  table : String
  type_ : String
  ranges : Option String
  idict : Option (List (String × String))
deriving DecidableEq, Repr

/-- One iteration of `load_dict`'s row loop: `col = int(row[0])`, the five
named fields at positions 1-5, and — exactly when the row has seven
fields — the range string and its parsed `idict`.  Any raise is `none`. -/
def load_dict_row (row : List String) : Option (Int × DictEntry) := do
  let c0 ← row[0]?
  let col ← pyInt? c0
  let name ← row[1]?
  let alias_ ← row[2]?
  let group ← row[3]?
  let table ← row[4]?
  let type_ ← row[5]?
  if row.length = 7 then
    let rstr ← row[6]?
    let m ← build_idict rstr
    pure (col, ⟨name, alias_, group, table, type_, some rstr, some m⟩)
  else
    pure (col, ⟨name, alias_, group, table, type_, none, none⟩)

/-- `load_dict` over all rows (no header skip), as the ordered list of
`(col, entry)` pairs in row order.  (Python's `dict[col] = info` would
de-duplicate a repeated position; the dictionaries have distinct positions
and no claim concerns duplicates, so the pair list keeps row order.) -/
def load_dict (rows : List (List String)) : Option (List (Int × DictEntry)) :=
  optMapM load_dict_row rows

/-- One row written by `save_dict` (lines 602-610): `[title, type, ranges]`
when the variable has a non-empty range string, else `[title, type]`. -/
def save_dict_row (title type_ : String) (ranges : Option String) : List String :=
  match ranges with
  | some r => if r = "" then [title, type_] else [title, type_, r]
  | none => [title, type_]

/-! ## Source loaders (`load_master` / `load_demo` / `load_case` /
`load_pico_data`, lines 47-117).  Each `load_*` function takes the rows
after the header row already consumed by `next(reader)`. -/

/-- One iteration of `load_master`'s row loop.  The ignore-list test runs
before any further field access; the disease-group test runs after the
reads of columns 3, 5, 8, 9, 10 (so a short row raises even when its group
would be empty, exactly as in Python). -/
def master_step (ignore_id : List String) (s : Store) (row : List String) :
    Option Store := do
  let id ← row[1]?
  if id ∈ ignore_id then pure s
  else do
    let idx ← row[3]?
    let date ← row[5]?
    let vload ← row[8]?
    let _result ← row[9]?
    let group ← row[10]?
    if group = "" then pure s
    else
      match store_lookup s id with
      | some _ =>
        pure (store_update s id (fun p => { p with qpcr := p.qpcr ++ [⟨idx, date, vload⟩] }))
      | none =>
        pure (s ++ [(id, ⟨group, none, none, none, none, none, [⟨idx, date, vload⟩]⟩)])

/-- `load_master` over the post-header rows, starting from store `s`. -/
def load_master (ignore_id : List String) (s : Store) :
    List (List String) → Option Store
  | [] => some s
  | row :: rest =>
    match master_step ignore_id s row with
    | none => none
    | some s' => load_master ignore_id s' rest

/-- One iteration of `load_demo`'s row loop: skip identifiers absent from
the store, else set `outcome`, `sex` and the raw `demo` row. -/
def demo_step (s : Store) (row : List String) : Option Store := do
  let id ← row[1]?
  match store_lookup s id with
  | none => pure s
  | some _ => do
    let sex ← row[3]?
    let outcome ← row[7]?
    pure (store_update s id
      (fun p => { p with outcome := some outcome, sex := some sex, demo := some row }))

/-- `load_demo` over the post-header rows. -/
def load_demo (s : Store) : List (List String) → Option Store
  | [] => some s
  | row :: rest =>
    match demo_step s row with
    | none => none
    | some s' => load_demo s' rest

/-- One iteration of `load_case`'s row loop: skip identifiers absent from
the store, else set the raw `case` row. -/
def case_step (s : Store) (row : List String) : Option Store := do
  let id ← row[0]?
  match store_lookup s id with
  | none => pure s
  | some _ => pure (store_update s id (fun p => { p with caseRow := some row }))

/-- `load_case` over the post-header rows. -/
def load_case (s : Store) : List (List String) → Option Store
  | [] => some s
  | row :: rest =>
    match case_step s row with
    | none => none
    | some s' => load_case s' rest

/-- One iteration of `load_pico_data`'s row loop: skip identifiers absent
from the store, else append the raw row to the (possibly freshly created)
`pico` series. -/
def pico_step (s : Store) (row : List String) : Option Store := do
  let id ← row[3]?
  match store_lookup s id with
  | none => pure s
  | some p =>
    match p.pico with
    | some series =>
      pure (store_update s id (fun q => { q with pico := some (series ++ [row]) }))
    | none =>
      pure (store_update s id (fun q => { q with pico := some [row] }))

/-- `load_pico_data` over the post-header rows. -/
def load_pico_data (s : Store) : List (List String) → Option Store
  | [] => some s
  | row :: rest =>
    match pico_step s row with
    | none => none
    | some s' => load_pico_data s' rest

/-- The loader sequence of the main program (lines 671-681): master, then
demographics, then case notification, then metabolic panel, starting from
the empty `src_data`. -/
def load_sources (ignore_id : List String)
    (master_rows demo_rows case_rows pico_rows : List (List String)) :
    Option Store := do
  let s1 ← load_master ignore_id [] master_rows
  let s2 ← load_demo s1 demo_rows
  let s3 ← load_case s2 case_rows
  let s4 ← load_pico_data s3 pico_rows
  pure s4

/-- The condition under which a master-table row makes the identifier `id`
present in the store: the row carries `id` in column 1, `id` is not on the
ignore list, and the row's disease-group cell (column 10) is non-empty.
(When the run completes, column 10 of every non-ignored row exists, so the
`getD` default is never the deciding case.) -/
def master_row_creates (ignore_id : List String) (row : List String) (id : String) : Prop :=
  row[1]? = some id ∧ id ∉ ignore_id ∧ (row[10]?).getD "" ≠ ""

/-! ## Cluster compound codes (`load_cluster_data`, lines 308-342) -/

/-- `normalize_id` (lines 246-254): insert a dash before the first digit;
identifiers without a digit are returned unchanged (with a warning). -/
def normalize_id (id : String) : String :=
  match id.data.findIdx? Char.isDigit with
  | some pos => (⟨id.data.take pos⟩ : String) ++ "-" ++ (⟨id.data.drop pos⟩ : String)
  | none => id

/-- Decoding of the dotted compound code `row[2]` in `load_cluster_data`:
`parts = code.split(".")`, `cvalue = parts[0]`, `extra = parts[1]` (an
`IndexError`, `none`, when there is no dot), then the three optional
characters of `extra` with their defaults.  Returns
`(cvalue, cmutat, svalue, smutat)`. -/
def parse_cluster_code (code : String) : Option (String × String × String × String) :=
  match pySplit '.' code with
  | cvalue :: extra :: _ =>
    match extra.data with
    | [] => some (cvalue, "", "", "")
    | [c0] => some (cvalue, String.singleton c0, "", "")
    | [c0, c1] => some (cvalue, String.singleton c0, String.singleton c1, "0")
    | c0 :: c1 :: c2 :: _ =>
      some (cvalue, String.singleton c0, String.singleton c1, String.singleton c2)
  | _ => none

/-! ## Aggregation engine: demographics (`add_demo_data`, lines 381-411) -/

/-- The categorical translation of `add_demo_data`'s row loop: when the
entry has an `idict`, a value present in the map is replaced by its
translation and a value absent from the map by the empty string; without an
`idict` the value passes through raw. -/
def translate_demo (e : DictEntry) (val : String) : String :=
  match e.idict with
  | some m =>
    match alist_lookup m val with
    | some v => v
    | none => ""
  | none => val

/-- One demographics cell: `val = data["demo"][col]` when the patient has a
(truthy) demographics row — an out-of-range `col` raises — else `val = ""`;
then the categorical translation. -/
def demo_val (p : PatientData) (col : Int) (e : DictEntry) : Option Cell :=
  if truthyOptList p.demo then
    (pyGet (p.demo.getD []) col).map (fun val => Cell.s (translate_demo e val))
  else
    some (Cell.s (translate_demo e ""))

/-- The row built for one patient by `add_demo_data`:
`[id, diag]` followed by one translated cell per dictionary entry. -/
def add_demo_row (demo_dict : List (Int × DictEntry)) (id : String) (p : PatientData) :
    Option (List Cell) := do
  let diag := if p.group = "Epos" then "1" else "0"
  let cells ← optMapM (fun ce => demo_val p ce.1 ce.2) demo_dict
  pure (Cell.s id :: Cell.s diag :: cells)

/-! ## Aggregation engine: case notification (`add_case_data`, lines 415-433) -/

/-- One case-notification cell: `val = data["case"][col]` when the patient
has a (truthy) case row, else `val = ""`; then — unlike the demographics
loop — an *unguarded* map lookup `val = var["idict"][val]`, whose `KeyError`
on a value absent from the map is `none`. -/
def case_val (p : PatientData) (col : Int) (e : DictEntry) : Option Cell := do
  let val ← if truthyOptList p.caseRow then pyGet (p.caseRow.getD []) col else pure ""
  match e.idict with
  | some m => (alist_lookup m val).map Cell.s
  | none => pure (Cell.s val)

/-- The cells appended to a patient's row by `add_case_data`. -/
def add_case_row (case_dict : List (Int × DictEntry)) (p : PatientData) :
    Option (List Cell) :=
  optMapM (fun ce => case_val p ce.1 ce.2) case_dict

/-! ## Aggregation engine: metabolic panel (`add_pico_data`, lines 437-467) -/

/-- The maximum metabolic-panel series length over the store (lines
439-444; only truthy series participate in the `max`). -/
def pico_max_len (s : Store) : ℕ :=
  s.foldl
    (fun m e =>
      if truthyOptList e.2.pico then max m (e.2.pico.getD []).length else m)
    0

/-- The cells appended for one metabolic-panel reading: the date at column
6 followed by one cell per panel analyte at its declared column. -/
def pico_block (pico_cols : List Int) (prow : List String) : Option (List Cell) := do
  let d ← pyGet prow 6
  let vals ← optMapM (fun c => pyGet prow c) pico_cols
  pure (Cell.s d :: vals.map Cell.s)

/-- The cells appended to a patient's row by `add_pico_data`: for a truthy
series, its blocks in source order followed by
`count - count1 * (1 + len(pico_names))` sentinels, where
`count = max_len * (1 + len(pico_names))`; else `count` sentinels. -/
def add_pico_row (pico_cols : List Int) (max_len : ℕ) (p : PatientData) :
    Option (List Cell) :=
  if truthyOptList p.pico then do
    let series := p.pico.getD []
    let blocks ← optMapM (pico_block pico_cols) series
    pure (blocks.flatten ++
      List.replicate
        (max_len * (1 + pico_cols.length) - series.length * (1 + pico_cols.length))
        Cell.missing)
  else
    some (List.replicate (max_len * (1 + pico_cols.length)) Cell.missing)

/-! ## Aggregation engine: viral load (`add_qpcr_data`, lines 471-530) -/

/-- The running state of `add_qpcr_data`'s first per-patient loop:
`first_qpcr`, `max_qpcr`, `min_qpcr`, `ave_qpcr` (each initialized to
`None`) and the count `slen` of non-empty readings. -/
structure QpcrAcc where
  first : Option ℚ
  maxv : Option ℚ
  minv : Option ℚ
  avev : Option ℚ
  slen : ℕ
deriving DecidableEq, Repr

/-- Python truthiness of `first_qpcr`: falsy when `None` *and also* when it
holds the float `0.0`. -/
def pyTruthyQ : Option ℚ → Bool
  | none => false
  | some v => v ≠ 0

/-- `fval`: `math.log10(1 + float(value))` when the `-log` flag is set,
else `float(value)`; the parsed float `rv` is supplied, the logarithm is
the abstract `t` applied to `1 + rv`. -/
def qpcr_fval (logMode : Bool) (t : ℚ → ℚ) (rv : ℚ) : ℚ :=
  if logMode then t (1 + rv) else rv

/-- The body of the first loop for one non-empty reading value `fval`: a
truthy `first_qpcr` updates max/min/sum, a falsy one (None *or* 0.0)
(re)initializes all four accumulators; `slen` increments either way. -/
def qpcr_step (acc : QpcrAcc) (fval : ℚ) : QpcrAcc :=
  if pyTruthyQ acc.first then
    { first := acc.first
      maxv := some (max (acc.maxv.getD 0) fval)
      minv := some (min (acc.minv.getD 0) fval)
      avev := some (acc.avev.getD 0 + fval)
      slen := acc.slen + 1 }
  else
    { first := some fval, maxv := some fval, minv := some fval, avev := some fval
      slen := acc.slen + 1 }

/-- The first per-patient loop of `add_qpcr_data` (lines 501-516): fold the
accumulator over the series and rebuild the series with the in-place update
`qpcr[2] = str(fval)` applied to every non-empty value (`pf` raising,
`none`, models `float` on an unparsable value). -/
def qpcr_loop1 (logMode : Bool) (t : ℚ → ℚ) (pf : String → Option ℚ)
    (st : QpcrAcc × List MReading) :
    List QReading → Option (QpcrAcc × List MReading)
  | [] => some st
  | r :: rs =>
    if r.value ≠ "" then
      match pf r.value with
      | none => none
      | some rv =>
        let fv := qpcr_fval logMode t rv
        qpcr_loop1 logMode t pf
          (qpcr_step st.1 fv, st.2 ++ [⟨r.idx, r.date, Cell.q fv⟩]) rs
    else
      qpcr_loop1 logMode t pf (st.1, st.2 ++ [⟨r.idx, r.date, Cell.s r.value⟩]) rs

/-- The four summary cells (lines 518-521): printed
`first`/`max`/`min`/`ave/slen` when `first_qpcr` is truthy, else four
sentinels. -/
def qpcr_derived_cells (acc : QpcrAcc) : List Cell :=
  if pyTruthyQ acc.first then
    [Cell.q (acc.first.getD 0), Cell.q (acc.maxv.getD 0), Cell.q (acc.minv.getD 0),
     Cell.q (acc.avev.getD 0 / (acc.slen : ℚ))]
  else
    List.replicate 4 Cell.missing

/-- The second per-patient loop (lines 523-526): emit `[date, value]` from
the (mutated) series. -/
def qpcr_slot_cells (mseries : List MReading) : List Cell :=
  mseries.foldl (fun out r => out ++ [Cell.s r.date, r.value]) []

/-- The cells appended to a patient's row by `add_qpcr_data`: for a truthy
series the four summary cells, the slot cells, and
`count - 4 - count1 * 2` sentinels where `count = 4 + max_len * 2`; for an
empty series `count` sentinels. -/
def add_qpcr_row (logMode : Bool) (t : ℚ → ℚ) (pf : String → Option ℚ)
    (max_len : ℕ) (p : PatientData) : Option (List Cell) :=
  if p.qpcr ≠ [] then
    match qpcr_loop1 logMode t pf (⟨none, none, none, none, 0⟩, []) p.qpcr with
    | none => none
    | some (acc, mseries) =>
      some (qpcr_derived_cells acc ++ qpcr_slot_cells mseries ++
        List.replicate ((4 + max_len * 2) - 4 - p.qpcr.length * 2) Cell.missing)
  else
    some (List.replicate (4 + max_len * 2) Cell.missing)

/-- The maximum qPCR series length over the store (lines 473-478). -/
def qpcr_max_len (s : Store) : ℕ :=
  s.foldl (fun m e => if e.2.qpcr ≠ [] then max m e.2.qpcr.length else m) 0

/-! ## Aggregation engine: sequencing (`add_seq_data`, lines 534-569) -/

/-- The cells appended to one patient's row by `add_seq_data`: one cell per
sequencing variable (SNP indicators, allele frequencies, then the four
cluster columns), the per-variable map value when the id is a key, else the
empty string.  `seq_maps` lists the variables in declaration order, each
with its per-patient data map. -/
def add_seq_row (seq_maps : List (String × List (String × String))) (id : String) :
    List Cell :=
  seq_maps.map (fun vm =>
    match alist_lookup vm.2 id with
    | some v => Cell.s v
    | none => Cell.s "")

/-! ## Aggregation engine: the declared variable list -/

/-- Variables declared by `add_demo_data`: `GID`, `DIAG`, then one per
dictionary entry. -/
def add_demo_vars (demo_dict : List (Int × DictEntry)) : List String :=
  "GID" :: "DIAG" :: demo_dict.map (fun ce => ce.2.name)

/-- Variables declared by `add_case_data`: one per dictionary entry. -/
def add_case_vars (case_dict : List (Int × DictEntry)) : List String :=
  case_dict.map (fun ce => ce.2.name)

/-- Variables declared by `add_pico_data`: for each day `i` in
`1..max_len`, a date column and one column per panel analyte name. -/
def add_pico_vars (pico_names : List String) : ℕ → List String
  | 0 => []
  | n + 1 =>
    add_pico_vars pico_names n ++
      ("DOPANEL_" ++ toString (n + 1)) ::
        pico_names.map (fun nm => nm ++ "_" ++ toString (n + 1))

/-- Variables declared by `add_qpcr_data`: the four summary columns, then a
date and a value column per day `1..max_len`. -/
def add_qpcr_day_vars : ℕ → List String
  | 0 => []
  | n + 1 =>
    add_qpcr_day_vars n ++
      ["DOPCR_" ++ toString (n + 1), "PCR_" ++ toString (n + 1)]

/-- All qPCR variables. -/
def add_qpcr_vars (max_len : ℕ) : List String :=
  ["PCR", "PCR_MAX", "PCR_MIN", "PCR_AVE"] ++ add_qpcr_day_vars max_len

/-- The full process-wide ordered variable list after all aggregation
phases (sequencing only under the `-seq` flag). -/
def all_variables (seq_flag : Bool) (demo_dict case_dict : List (Int × DictEntry))
    (pico_names : List String) (pico_max qpcr_max : ℕ)
    (seq_maps : List (String × List (String × String))) : List String :=
  add_demo_vars demo_dict ++ add_case_vars case_dict ++
    add_pico_vars pico_names pico_max ++ add_qpcr_vars qpcr_max ++
    (if seq_flag then seq_maps.map Prod.fst else [])

/-! ## Aggregation engine: the full row of one patient -/

/-- The complete output row of one patient after all aggregation phases.
Python builds the rows phase-major (each `add_*_data` loops over all
patients before the next phase starts); appends to distinct patients' rows
commute, so per-patient composition of the phases yields the same rows. -/
def aggregate_row (seq_flag log_flag : Bool) (t : ℚ → ℚ) (pf : String → Option ℚ)
    (demo_dict case_dict : List (Int × DictEntry)) (pico_cols : List Int)
    (pico_max qpcr_max : ℕ) (seq_maps : List (String × List (String × String)))
    (id : String) (p : PatientData) : Option (List Cell) := do
  let drow ← add_demo_row demo_dict id p
  let crow ← add_case_row case_dict p
  let prow ← add_pico_row pico_cols pico_max p
  let qrow ← add_qpcr_row log_flag t pf qpcr_max p
  let base := drow ++ crow ++ prow ++ qrow
  if seq_flag then pure (base ++ add_seq_row seq_maps id) else pure base

/-- The full `mira_data` mapping: one row per patient in store order, with
the two global maxima computed over the whole store first. -/
def aggregate_all (seq_flag log_flag : Bool) (t : ℚ → ℚ) (pf : String → Option ℚ)
    (demo_dict case_dict : List (Int × DictEntry)) (pico_cols : List Int)
    (seq_maps : List (String × List (String × String))) (s : Store) :
    Option (List (String × List Cell)) :=
  optMapM
    (fun e =>
      (aggregate_row seq_flag log_flag t pf demo_dict case_dict pico_cols
          (pico_max_len s) (qpcr_max_len s) seq_maps e.1 e.2).map
        (fun r => (e.1, r)))
    s

/-! ## Spec-side reference definition for the qPCR summary (C1)

Modelled from the spec's words, for comparison with `add_qpcr_data`'s
accumulator: across all readings with a non-empty value, the first value,
maximum, minimum and arithmetic mean, each transformed by
`log10(1 + rawValue)` (the abstract `t (1 + _)`) before aggregation when
log mode is set; no non-empty reading means all four get the sentinel. -/

/-- Spec-side qPCR summary: `none` (outer) when some non-empty value fails
to parse, `some none` when no reading has a non-empty value (all four
columns sentinel), else `some (some (first, max, min, mean))` over the
transformed non-empty values. -/
def spec_qpcr_summary (logMode : Bool) (t : ℚ → ℚ) (pf : String → Option ℚ)
    (series : List QReading) : Option (Option (ℚ × ℚ × ℚ × ℚ)) :=
  (optMapM (fun r => pf r.value) (series.filter (fun r => r.value ≠ ""))).map
    (fun rvs =>
      match rvs.map (qpcr_fval logMode t) with
      | [] => none
      | v :: vs =>
        some (v, vs.foldl max v, vs.foldl min v,
          (v :: vs).sum / ((v :: vs).length : ℚ)))

/-- The four summary values actually computed by `add_qpcr_data` for one
patient series (the printed contents of `PCR`, `PCR_MAX`, `PCR_MIN`,
`PCR_AVE`): `none` (outer) on a float parse error, `some none` when the
final `if first_qpcr:` is falsy (all four columns sentinel). -/
def qpcr_summary (logMode : Bool) (t : ℚ → ℚ) (pf : String → Option ℚ)
    (series : List QReading) : Option (Option (ℚ × ℚ × ℚ × ℚ)) :=
  (qpcr_loop1 logMode t pf (⟨none, none, none, none, 0⟩, []) series).map
    (fun st =>
      if pyTruthyQ st.1.first then
        some (st.1.first.getD 0, st.1.maxv.getD 0, st.1.minv.getD 0,
          st.1.avev.getD 0 / (st.1.slen : ℚ))
      else none)

/-! ## Concrete stand-ins used when theorems are instantiated -/

/-- Identity stand-in for the abstract log-transform parameter `t`. -/
def idQ : ℚ → ℚ := fun v => v

/-- A tiny concrete float parse covering the literals used in concrete
instantiations (`float` on `"0"`, `"5"`, `"7"`). -/
def pfSmall : String → Option ℚ := fun s =>
  if s = "0" then some 0 else if s = "5" then some 5 else if s = "7" then some 7 else none

/-! ## Basic lemmas about the helpers -/

theorem optMapM_length {α β : Type} (f : α → Option β) :
    ∀ {l : List α} {l' : List β}, optMapM f l = some l' → l'.length = l.length := by
  intro l
  induction l with
  | nil =>
    intro l' h
    simp only [optMapM, Option.some.injEq] at h
    subst h
    rfl
  | cons a t ih =>
    intro l' h
    simp only [optMapM] at h
    cases hfa : f a with
    | none => rw [hfa] at h; exact absurd h (by simp)
    | some b =>
      rw [hfa] at h
      cases hmt : optMapM f t with
      | none => rw [hmt] at h; exact absurd h (by simp)
      | some t' =>
        rw [hmt] at h
        simp only [Option.some.injEq] at h
        subst h
        simp [ih hmt]

theorem optMapM_mem {α β : Type} (f : α → Option β) :
    ∀ {l : List α} {l' : List β}, optMapM f l = some l' →
      ∀ b ∈ l', ∃ a ∈ l, f a = some b := by
  intro l
  induction l with
  | nil =>
    intro l' h b hb
    simp only [optMapM, Option.some.injEq] at h
    subst h
    simp at hb
  | cons a t ih =>
    intro l' h b hb
    simp only [optMapM] at h
    cases hfa : f a with
    | none => rw [hfa] at h; exact absurd h (by simp)
    | some b0 =>
      rw [hfa] at h
      cases hmt : optMapM f t with
      | none => rw [hmt] at h; exact absurd h (by simp)
      | some t' =>
        rw [hmt] at h
        simp only [Option.some.injEq] at h
        subst h
        rcases List.mem_cons.mp hb with hb | hb
        · exact ⟨a, List.mem_cons_self a t, hb ▸ hfa⟩
        · rcases ih hmt b hb with ⟨a', ha', hfa'⟩
          exact ⟨a', List.mem_cons_of_mem a ha', hfa'⟩

theorem storeKeys_update (s : Store) (id : String) (f : PatientData → PatientData) :
    storeKeys (store_update s id f) = storeKeys s := by
  induction s with
  | nil => rfl
  | cons e t ih =>
    simp only [store_update, storeKeys, List.map_cons] at *
    by_cases h : e.1 = id <;> simp [h, ih]

theorem store_lookup_eq_none_iff (s : Store) (id : String) :
    store_lookup s id = none ↔ id ∉ storeKeys s := by
  induction s with
  | nil => simp [store_lookup, storeKeys]
  | cons e t ih =>
    simp only [store_lookup, storeKeys, List.map_cons, List.mem_cons] at ih ⊢
    by_cases h : e.1 = id
    · simp [h]
    · rw [if_neg h, ih]
      constructor
      · intro hn hc
        rcases hc with hc | hc
        · exact h hc.symm
        · exact hn hc
      · intro hn hc
        exact hn (Or.inr hc)

/-! ## Lemmas about the dictionary loader -/

/-- A non-empty code-spec part that does not split into exactly two fields
aborts the `idict` loop. -/
theorem build_idict_aux_of_bad_part {m : List (String × String)} :
    ∀ {parts : List String},
      (∃ p ∈ parts, p ≠ "" ∧ (pySplit ':' p).length ≠ 2) →
      build_idict_aux m parts = none := by
  intro parts
  induction parts generalizing m with
  | nil => intro h; simp at h
  | cons p ps ih =>
    intro h
    rcases h with ⟨p', hp', hne, hlen⟩
    rcases List.mem_cons.mp hp' with rfl | hmem
    · simp only [build_idict_aux]
      rw [if_neg hne]
      cases hsplit : pySplit ':' p' with
      | nil => rfl
      | cons a t =>
        cases t with
        | nil => rfl
        | cons b t2 =>
          cases t2 with
          | nil => exact absurd (by rw [hsplit]; rfl) hlen
          | cons c t3 => rfl
    · simp only [build_idict_aux]
      by_cases hpe : p = ""
      · rw [if_pos hpe]
        exact ih ⟨p', hmem, hne, hlen⟩
      · rw [if_neg hpe]
        cases hsplit : pySplit ':' p with
        | nil => rfl
        | cons a t =>
          cases t with
          | nil => rfl
          | cons b t2 =>
            cases t2 with
            | nil => exact ih ⟨p', hmem, hne, hlen⟩
            | cons c t3 => rfl

/-- A dictionary row with fewer than six fields aborts `load_dict_row`
(in Python, at `int(row[0])` or at one of the accesses `row[1]`-`row[5]`). -/
theorem load_dict_row_of_short {row : List String} (h : row.length < 6) :
    load_dict_row row = none := by
  have h5 : row[5]? = none := by rw [List.getElem?_eq_none_iff]; omega
  cases h0 : row[0]? with
  | none => simp [load_dict_row, h0]
  | some c0 =>
    cases hi : pyInt? c0 with
    | none => simp [load_dict_row, h0, hi]
    | some col =>
      cases h1 : row[1]? with
      | none => simp [load_dict_row, h0, hi, h1]
      | some f1 =>
        cases h2 : row[2]? with
        | none => simp [load_dict_row, h0, hi, h1, h2]
        | some f2 =>
          cases h3 : row[3]? with
          | none => simp [load_dict_row, h0, hi, h1, h2, h3]
          | some f3 =>
            cases h4 : row[4]? with
            | none => simp [load_dict_row, h0, hi, h1, h2, h3, h4]
            | some f4 => simp [load_dict_row, h0, hi, h1, h2, h3, h4, h5]

/-! ## Claim C8 — malformed dictionary rows abort the run -/

/-- Claim C8: for every malformed variable-dictionary row — a non-integer
position field, too few fields, or (in a seven-field row) a non-empty
code-spec pair that does not split into exactly a code and a label —
`load_dict` raises (modelled as `none`), rather than dropping the row or
continuing with partial data. -/
theorem C8_load_dict_row_malformed_aborts (row : List String)
    (h : row.length < 6 ∨ (row[0]?).bind pyInt? = none ∨
      (row.length = 7 ∧ ∃ rstr, row[6]? = some rstr ∧
        ∃ p ∈ pySplit ';' rstr, p ≠ "" ∧ (pySplit ':' p).length ≠ 2)) :
    load_dict_row row = none := by
  rcases h with h | h | ⟨hlen, rstr, h6, hbad⟩
  · exact load_dict_row_of_short h
  · cases h0 : row[0]? with
    | none => simp [load_dict_row, h0]
    | some c0 =>
      rw [h0] at h
      simp only [Option.bind_eq_bind', Option.some_bind'] at h
      simp [load_dict_row, h0, h]
  · have hbd : build_idict rstr = none := build_idict_aux_of_bad_part hbad
    cases h0 : row[0]? with
    | none => rw [List.getElem?_eq_none_iff] at h0; omega
    | some c0 =>
      cases hi : pyInt? c0 with
      | none => simp [load_dict_row, h0, hi]
      | some col =>
        cases h1 : row[1]? with
        | none => rw [List.getElem?_eq_none_iff] at h1; omega
        | some f1 =>
          cases h2 : row[2]? with
          | none => rw [List.getElem?_eq_none_iff] at h2; omega
          | some f2 =>
            cases h3 : row[3]? with
            | none => rw [List.getElem?_eq_none_iff] at h3; omega
            | some f3 =>
              cases h4 : row[4]? with
              | none => rw [List.getElem?_eq_none_iff] at h4; omega
              | some f4 =>
                cases h5 : row[5]? with
                | none => rw [List.getElem?_eq_none_iff] at h5; omega
                | some f5 =>
                  simp [load_dict_row, h0, hi, h1, h2, h3, h4, h5, hlen, h6, hbd]

/-- C8 witness: a seven-field row whose code spec holds the pair `"bad"`
(no colon) is rejected. -/
theorem C8_witness :
    load_dict_row ["3", "n", "a", "g", "t", "int", "bad;1:Yes"] = none :=
  C8_load_dict_row_malformed_aborts _
    (Or.inr (Or.inr ⟨rfl, "bad;1:Yes", rfl, "bad", by decide, by decide, by decide⟩))

/-! ## Claim C6 — the dictionary export does not round-trip -/

/-- C6 counterexample: re-parsing the row `save_dict` writes for the
`DIAG` variable with `load_dict` raises instead of reproducing the
original code map. -/
theorem C6_counterexample :
    load_dict_row (save_dict_row "Diagnosis" "category" (some "1:Positive;0:Negative")) =
      none := by decide

/-- Claim C6 (amended): the round trip always fails — `load_dict` raises on
every row written by `save_dict`, because the exported format
`title,type[,rangeSpec]` has at most three fields while `load_dict`
requires at least six (with an integer first field); no code map is ever
reproduced from the export. -/
theorem C6_save_dict_row_never_reparses (title type_ : String) (ranges : Option String) :
    load_dict_row (save_dict_row title type_ ranges) = none := by
  apply load_dict_row_of_short
  rcases ranges with _ | r
  · simp [save_dict_row]
  · simp only [save_dict_row]
    by_cases hr : r = "" <;> simp [hr]

/-! ## Claim C7 — dotted cluster compound codes -/

/-- C7 counterexample: a compound code with no dot does not decode with
default parts — `load_cluster_data` raises an `IndexError` at
`parts[1]`. -/
theorem C7_counterexample : parse_cluster_code "3" = none := by decide

/-- Claim C7 (amended): for every cluster-table code that contains a dot,
the code decodes as `cluster.extra` with the cluster id the part before
the first dot, the cluster-mutation-count `extra`'s first character, the
sub-cluster id its second, and the sub-cluster-mutation-count its third;
absent parts default to the empty string, except the
sub-cluster-mutation-count which defaults to `"0"` when a sub-cluster id
is present.  A code with no dot raises instead (see the
counterexample). -/
theorem C7_cluster_code_decodes (code cvalue extra : String) (rest : List String)
    (h : pySplit '.' code = cvalue :: extra :: rest) :
    parse_cluster_code code =
      some (cvalue, (⟨extra.data.take 1⟩ : String), (⟨(extra.data.drop 1).take 1⟩ : String),
        if extra.data.length ≤ 1 then ""
        else if extra.data.length = 2 then "0"
        else (⟨(extra.data.drop 2).take 1⟩ : String)) := by
  unfold parse_cluster_code
  rw [h]
  rcases hd : extra.data with _ | ⟨c0, _ | ⟨c1, _ | ⟨c2, t⟩⟩⟩ <;>
    simp [String.singleton, String.push, hd]

/-- C7 witness: the code `"1.2a3"` decodes to cluster `1`, one mutation
from the cluster, sub-cluster `a`, three mutations from the
sub-cluster. -/
theorem C7_witness :
    parse_cluster_code "1.2a3" =
      some ("1", (⟨"2a3".data.take 1⟩ : String), (⟨("2a3".data.drop 1).take 1⟩ : String),
        if "2a3".data.length ≤ 1 then ""
        else if "2a3".data.length = 2 then "0"
        else (⟨("2a3".data.drop 2).take 1⟩ : String)) :=
  C7_cluster_code_decodes "1.2a3" "1" "2a3" [] (by decide)

/-! ## Claim C9 — the empty string in every code map -/

/-- Keys present in the seed map survive the `idict` loop. -/
theorem build_idict_aux_lookup_isSome {m : List (String × String)} :
    ∀ {ps : List String} {m' : List (String × String)},
      build_idict_aux m ps = some m' →
      ∀ k, (alist_lookup m k).isSome → (alist_lookup m' k).isSome := by
  intro ps
  induction ps generalizing m with
  | nil =>
    intro m' h k hk
    simp only [build_idict_aux, Option.some.injEq] at h
    subst h
    exact hk
  | cons p ps ih =>
    intro m' h k hk
    simp only [build_idict_aux] at h
    by_cases hpe : p = ""
    · rw [if_pos hpe] at h
      exact ih h k hk
    · rw [if_neg hpe] at h
      cases hsplit : pySplit ':' p with
      | nil => rw [hsplit] at h; exact absurd h (by simp)
      | cons a t =>
        cases t with
        | nil => rw [hsplit] at h; exact absurd h (by simp)
        | cons b t2 =>
          cases t2 with
          | nil =>
            rw [hsplit] at h
            refine ih h k ?_
            simp only [alist_lookup]
            by_cases hb : b = k <;> simp [hb, hk]
          | cons c t3 => rw [hsplit] at h; exact absurd h (by simp)

/-- When no code-spec pair has an empty label, the loop leaves the binding
of the empty key untouched. -/
theorem build_idict_aux_lookup_empty {m : List (String × String)} :
    ∀ {ps : List String} {m' : List (String × String)},
      build_idict_aux m ps = some m' →
      (∀ p ∈ ps, p ≠ "" → ∀ value key, pySplit ':' p = [value, key] → key ≠ "") →
      alist_lookup m' "" = alist_lookup m "" := by
  intro ps
  induction ps generalizing m with
  | nil =>
    intro m' h _
    simp only [build_idict_aux, Option.some.injEq] at h
    subst h
    rfl
  | cons p ps ih =>
    intro m' h hcond
    simp only [build_idict_aux] at h
    by_cases hpe : p = ""
    · rw [if_pos hpe] at h
      exact ih h (fun q hq => hcond q (List.mem_cons_of_mem p hq))
    · rw [if_neg hpe] at h
      cases hsplit : pySplit ':' p with
      | nil => rw [hsplit] at h; exact absurd h (by simp)
      | cons a t =>
        cases t with
        | nil => rw [hsplit] at h; exact absurd h (by simp)
        | cons b t2 =>
          cases t2 with
          | nil =>
            rw [hsplit] at h
            have hb : b ≠ "" := hcond p (List.mem_cons_self p ps) hpe a b hsplit
            have := ih h (fun q hq => hcond q (List.mem_cons_of_mem p hq))
            rw [this]
            simp only [alist_lookup]
            rw [if_neg hb]
          | cons c t3 => rw [hsplit] at h; exact absurd h (by simp)

/-- A patient with no case-notification row gets the raw value `""`, so
`add_case_data`'s cell is the unguarded map lookup of the empty string. -/
theorem case_val_no_row (e : DictEntry) (m : List (String × String))
    (he : e.idict = some m) (col : Int) (p : PatientData) (hp : p.caseRow = none) :
    case_val p col e = Option.map Cell.s (alist_lookup m "") := by
  unfold case_val
  rw [hp, he]
  exact rfl

/-- C9 counterexample: the range spec `"1:"` declares the pair code `1`,
label empty, so the built code map binds the empty string to `"1"`, not to
the empty string as the claim asserts of every code map. -/
theorem C9_counterexample :
    build_idict "1:" = some [("", "1"), ("", "")] ∧
    alist_lookup [("", "1"), ("", "")] "" = some "1" := by decide

/-- Claim C9 (amended): every code map built by the dictionary loader
contains the empty string among its keys, so the unguarded lookup
`var["idict"][val]` performed by `add_case_data` for a patient with no
case-notification row (whose raw value is the empty string) always
succeeds; moreover, whenever no code-spec pair carries an empty label —
the dictionaries of this dataset never do — the empty string is bound to
the empty string and that lookup yields the empty (sentinel) value. -/
theorem C9_empty_key_in_code_map (rstr : String) (m : List (String × String))
    (h : build_idict rstr = some m) :
    (alist_lookup m "").isSome ∧
    ((∀ p ∈ pySplit ';' rstr, p ≠ "" → (pySplit ':' p)[1]? ≠ some "") →
      alist_lookup m "" = some "" ∧
      ∀ (e : DictEntry) (col : Int) (p : PatientData),
        e.idict = some m → p.caseRow = none → case_val p col e = some (Cell.s "")) := by
  constructor
  · exact build_idict_aux_lookup_isSome h "" (by simp [alist_lookup])
  · intro hcond
    have hcond' : ∀ p ∈ pySplit ';' rstr, p ≠ "" →
        ∀ value key, pySplit ':' p = [value, key] → key ≠ "" := by
      intro p hp hne value key hsplit heq
      exact hcond p hp hne (by rw [hsplit, heq]; rfl)
    have hl : alist_lookup m "" = alist_lookup [("", "")] "" :=
      build_idict_aux_lookup_empty h hcond'
    have hl' : alist_lookup m "" = some "" := by rw [hl]; rfl
    refine ⟨hl', ?_⟩
    intro e col p he hp
    rw [case_val_no_row e m he col p hp, hl']
    rfl

/-- C9 witness: the `DIAG`-style code map, with a patient lacking a
case-notification row. -/
theorem C9_witness :
    alist_lookup [("Negative", "0"), ("Positive", "1"), ("", "")] "" = some "" ∧
    case_val ⟨"Epos", none, none, none, none, none, []⟩ 4
      ⟨"EOUT", "Outcome", "g", "t", "category", some "1:Positive;0:Negative",
        some [("Negative", "0"), ("Positive", "1"), ("", "")]⟩ = some (Cell.s "") := by
  have h :=
    (C9_empty_key_in_code_map "1:Positive;0:Negative"
        [("Negative", "0"), ("Positive", "1"), ("", "")] (by decide)).2 (by decide)
  exact ⟨h.1, h.2 _ 4 _ rfl rfl⟩

/-! ## Claim C2 — categorical translation, demographics vs case family -/

/-- C2 counterexample: the same unmapped raw value `"2"` under the same
code map is translated to the empty cell by the demographics loop but
raises a `KeyError` (aborts) in the case-notification loop — the strict
closed-vocabulary policy is *not* applied uniformly and an abort is
possible. -/
theorem C2_counterexample :
    demo_val ⟨"Epos", none, none, some ["2"], none, none, []⟩ 0
        ⟨"V", "v", "g", "t", "category", some "1:Yes", some [("Yes", "1"), ("", "")]⟩ =
      some (Cell.s "") ∧
    case_val ⟨"Epos", none, none, none, some ["2"], none, []⟩ 0
        ⟨"V", "v", "g", "t", "category", some "1:Yes", some [("Yes", "1"), ("", "")]⟩ =
      none := by decide

/-- Claim C2 (amended): for a variable whose dictionary entry carries a
code map, the demographics loop replaces a raw value present in the map by
its translation and a raw value absent from the map by the empty cell
(rendered as the sentinel); the case-notification loop performs the
lookup *unguarded*: a raw value present in the map is replaced by its
translation, but a raw value absent from the map raises a `KeyError`
(aborts the run) instead of becoming the sentinel. -/
theorem C2_categorical_translation (e : DictEntry) (m : List (String × String))
    (he : e.idict = some m) (col : Int) :
    (∀ (p : PatientData) (drow : List String) (val : String),
        p.demo = some drow → drow ≠ [] → pyGet drow col = some val →
        demo_val p col e = some (Cell.s ((alist_lookup m val).getD ""))) ∧
    (∀ (p : PatientData) (crow : List String) (val : String),
        p.caseRow = some crow → crow ≠ [] → pyGet crow col = some val →
        case_val p col e = (alist_lookup m val).map Cell.s) := by
  constructor
  · intro p drow val hp hne hval
    have ht : truthyOptList p.demo = true := by
      rw [hp]
      cases drow with
      | nil => exact absurd rfl hne
      | cons a l => rfl
    have hd : p.demo.getD [] = drow := by rw [hp]; rfl
    simp only [demo_val, ht, if_true, hd, hval, Option.map_some', translate_demo, he]
    cases alist_lookup m val <;> rfl
  · intro p crow val hp hne hval
    have ht : truthyOptList p.caseRow = true := by
      rw [hp]
      cases crow with
      | nil => exact absurd rfl hne
      | cons a l => rfl
    have hd : p.caseRow.getD [] = crow := by rw [hp]; rfl
    simp only [case_val, ht, if_true, hd, hval, Option.some_bind, he]
    exact rfl

/-- C2 witness: the raw value `"Yes"` present in a two-entry code map is
translated to `"1"` in both families. -/
theorem C2_witness :
    demo_val ⟨"Epos", none, none, some ["Yes"], none, none, []⟩ 0
        ⟨"V", "v", "g", "t", "category", some "1:Yes", some [("Yes", "1"), ("", "")]⟩ =
      some (Cell.s ((alist_lookup [("Yes", "1"), ("", "")] "Yes").getD "")) ∧
    case_val ⟨"Epos", none, none, none, some ["Yes"], none, []⟩ 0
        ⟨"V", "v", "g", "t", "category", some "1:Yes", some [("Yes", "1"), ("", "")]⟩ =
      (alist_lookup [("Yes", "1"), ("", "")] "Yes").map Cell.s := by
  have h := C2_categorical_translation
    ⟨"V", "v", "g", "t", "category", some "1:Yes", some [("Yes", "1"), ("", "")]⟩
    [("Yes", "1"), ("", "")] rfl 0
  exact ⟨h.1 _ ["Yes"] "Yes" rfl (by decide) rfl, h.2 _ ["Yes"] "Yes" rfl (by decide) rfl⟩

/-! ## Claim C1 — qPCR derived summary columns -/

/-- Claim C1 (code-bug evidence): the claim — and the spec — require the
four derived columns to be the first/max/min/mean over exactly the
non-empty readings whenever at least one exists.  The code checks
`if first_qpcr:` by Python truthiness, so a parsed value `0.0` is
indistinguishable from the `None` initialization: a series whose only
non-empty reading is `"0"` yields the sentinel in all four summary
columns (code `some none`) where the spec yields `(0, 0, 0, 0)`; and the
series `["0", "5"]` re-initializes the accumulators at the second
reading, reporting first `5` and minimum `5` where the spec — and the
code's own variable titles `First measured viral load` / `Minimum
measured viral load` — require first `0` and minimum `0`.  Log mode off,
so the transform is the identity on the parsed values. -/
theorem C1_qpcr_zero_value_divergence :
    (qpcr_summary false idQ pfSmall [⟨"1", "d1", "0"⟩] = some none ∧
      spec_qpcr_summary false idQ pfSmall [⟨"1", "d1", "0"⟩] = some (some (0, 0, 0, 0))) ∧
    (qpcr_summary false idQ pfSmall [⟨"1", "d1", "0"⟩, ⟨"2", "d2", "5"⟩] =
        some (some (5, 5, 5, 5 / 2)) ∧
      spec_qpcr_summary false idQ pfSmall [⟨"1", "d1", "0"⟩, ⟨"2", "d2", "5"⟩] =
        some (some (0, 5, 0, 5 / 2))) := by
  refine ⟨⟨?_, ?_⟩, ?_, ?_⟩ <;>
    norm_num +decide [qpcr_summary, spec_qpcr_summary, qpcr_loop1, qpcr_step, qpcr_fval,
      pyTruthyQ, optMapM, pfSmall, idQ]

/-! ## Lemmas about the qPCR loops -/

/-- The series rebuilt by the first qPCR loop is exactly the input series
with every non-empty value replaced by the printed transformed float and
every empty value untouched. -/
theorem qpcr_loop1_snd (logMode : Bool) (t : ℚ → ℚ) (pf : String → Option ℚ) :
    ∀ {series : List QReading} {st res : QpcrAcc × List MReading},
      qpcr_loop1 logMode t pf st series = some res →
      res.2 = st.2 ++ series.map (fun r =>
        if r.value = "" then (⟨r.idx, r.date, Cell.s r.value⟩ : MReading)
        else ⟨r.idx, r.date, Cell.q (qpcr_fval logMode t ((pf r.value).getD 0))⟩) := by
  intro series
  induction series with
  | nil =>
    intro st res h
    simp only [qpcr_loop1, Option.some.injEq] at h
    subst h
    simp
  | cons r rs ih =>
    intro st res h
    simp only [qpcr_loop1] at h
    by_cases hv : r.value = ""
    · rw [if_neg (by simp [hv])] at h
      rw [ih h]
      simp [hv]
    · rw [if_pos hv] at h
      cases hpf : pf r.value with
      | none => rw [hpf] at h; exact absurd h (by simp)
      | some rv =>
        rw [hpf] at h
        rw [ih h]
        simp [hv, hpf]

/-- The second qPCR loop emits the date/value pair of every (mutated)
series entry, in order. -/
theorem qpcr_slot_cells_eq :
    ∀ (mseries : List MReading) (init : List Cell),
      mseries.foldl (fun out r => out ++ [Cell.s r.date, r.value]) init =
        init ++ (mseries.map (fun r => [Cell.s r.date, r.value])).flatten := by
  intro mseries
  induction mseries with
  | nil => intro init; simp
  | cons r rs ih =>
    intro init
    simp only [List.foldl_cons, List.map_cons, List.flatten_cons]
    rw [ih]
    simp

/-! ## Claim C10 — per-slot qPCR values are transformed in place -/

/-- Claim C10: with the log flag set, the per-slot value columns `PCR_i` —
not only the four summary columns — hold the transformed value
`log10(1 + rawValue)` (the abstract `t (1 + _)` on the parsed value),
because the first loop rewrites each non-empty reading's value in the
stored series in place before the second loop emits the per-slot
date/value cells; readings with an empty value are left as the empty
string (rendered as the sentinel on save). -/
theorem C10_per_slot_values_transformed (t : ℚ → ℚ) (pf : String → Option ℚ)
    (mq : ℕ) (p : PatientData) (acc : QpcrAcc) (ms : List MReading)
    (hne : p.qpcr ≠ [])
    (hloop : qpcr_loop1 true t pf (⟨none, none, none, none, 0⟩, []) p.qpcr = some (acc, ms)) :
    add_qpcr_row true t pf mq p =
      some (qpcr_derived_cells acc ++
        (p.qpcr.map (fun r =>
          if r.value = "" then [Cell.s r.date, Cell.s r.value]
          else [Cell.s r.date, Cell.q (t (1 + (pf r.value).getD 0))])).flatten ++
        List.replicate ((4 + mq * 2) - 4 - p.qpcr.length * 2) Cell.missing) := by
  have hms := qpcr_loop1_snd true t pf hloop
  simp only [List.nil_append] at hms
  simp only [add_qpcr_row, hloop]
  rw [if_pos hne]
  unfold qpcr_slot_cells
  rw [qpcr_slot_cells_eq, List.nil_append, hms, List.map_map]
  congr 2
  congr 1
  congr 1
  apply List.map_congr_left
  intro r _
  by_cases hv : r.value = "" <;> simp [hv, Function.comp, qpcr_fval]

/-- C10 witness: a two-reading series (one parsed value `7`, one empty
cell) under the log flag. -/
theorem C10_witness :
    add_qpcr_row true idQ pfSmall 3
        ⟨"Epos", none, none, none, none, none, [⟨"1", "d1", "7"⟩, ⟨"2", "d2", ""⟩]⟩ =
      some (qpcr_derived_cells ⟨some (1 + 7), some (1 + 7), some (1 + 7), some (1 + 7), 1⟩ ++
        (([⟨"1", "d1", "7"⟩, ⟨"2", "d2", ""⟩] : List QReading).map (fun r =>
          if r.value = "" then [Cell.s r.date, Cell.s r.value]
          else [Cell.s r.date, Cell.q (idQ (1 + (pfSmall r.value).getD 0))])).flatten ++
        List.replicate ((4 + 3 * 2) - 4 - 2 * 2) Cell.missing) :=
  C10_per_slot_values_transformed idQ pfSmall 3 _
    ⟨some (1 + 7), some (1 + 7), some (1 + 7), some (1 + 7), 1⟩
    [⟨"1", "d1", Cell.q (1 + 7)⟩, ⟨"2", "d2", Cell.s ""⟩] (by decide) (by exact rfl)

/-! ## Claim C4 — repeated-measurement padding -/

/-- Claim C4: in each repeated family a patient with `k` readings gets
exactly its `k` slot blocks in source order followed by sentinel-filled
blocks up to the global maximum ((max − k) blocks of width 1 + analyte
count for the metabolic panel, (max − k) date/value pairs for qPCR), and
a patient with no series in the family gets the sentinel in every column
of the family. -/
theorem C4_padding_policy (pico_cols : List Int) (logMode : Bool) (t : ℚ → ℚ)
    (pf : String → Option ℚ) :
    (∀ (mp : ℕ) (p : PatientData) (series : List (List String)) (blocks : List (List Cell)),
      p.pico = some series → series ≠ [] →
      optMapM (pico_block pico_cols) series = some blocks →
      add_pico_row pico_cols mp p =
        some (blocks.flatten ++
          List.replicate ((mp - series.length) * (1 + pico_cols.length)) Cell.missing) ∧
      blocks.length = series.length) ∧
    (∀ (mp : ℕ) (p : PatientData), p.pico = none →
      add_pico_row pico_cols mp p =
        some (List.replicate (mp * (1 + pico_cols.length)) Cell.missing)) ∧
    (∀ (mq : ℕ) (p : PatientData) (acc : QpcrAcc) (ms : List MReading),
      p.qpcr ≠ [] →
      qpcr_loop1 logMode t pf (⟨none, none, none, none, 0⟩, []) p.qpcr = some (acc, ms) →
      add_qpcr_row logMode t pf mq p =
        some (qpcr_derived_cells acc ++
          (ms.map (fun r => [Cell.s r.date, r.value])).flatten ++
          List.replicate ((mq - p.qpcr.length) * 2) Cell.missing) ∧
      ms.length = p.qpcr.length) ∧
    (∀ (mq : ℕ) (p : PatientData), p.qpcr = [] →
      add_qpcr_row logMode t pf mq p =
        some (List.replicate (4 + mq * 2) Cell.missing)) := by
  refine ⟨?_, ?_, ?_, ?_⟩
  · intro mp p series blocks hp hne hblocks
    have ht : truthyOptList p.pico = true := by
      rw [hp]
      cases series with
      | nil => exact absurd rfl hne
      | cons a l => rfl
    have hd : p.pico.getD [] = series := by rw [hp]; rfl
    constructor
    · rw [add_pico_row, if_pos ht]
      simp only [hd, hblocks, Option.some_bind]
      rw [Nat.sub_mul]
      exact rfl
    · exact optMapM_length _ hblocks
  · intro mp p hp
    have ht : truthyOptList p.pico = false := by rw [hp]; rfl
    rw [add_pico_row, ht]
    simp
  · intro mq p acc ms hne hloop
    have hms := qpcr_loop1_snd logMode t pf hloop
    simp only [List.nil_append] at hms
    have hlen : ms.length = p.qpcr.length := by rw [hms, List.length_map]
    constructor
    · simp only [add_qpcr_row, hloop]
      rw [if_pos hne]
      unfold qpcr_slot_cells
      rw [qpcr_slot_cells_eq, List.nil_append]
      have hc : 4 + mq * 2 - 4 - p.qpcr.length * 2 = (mq - p.qpcr.length) * 2 := by omega
      rw [hc]
    · exact hlen
  · intro mq p hp
    rw [add_qpcr_row, if_neg (by simp [hp])]

/-- C4 witness: a one-reading metabolic-panel series against a global
maximum of 2 gets its own block followed by one sentinel-filled block. -/
theorem C4_witness :
    add_pico_row [4] 2
        ⟨"Epos", none, none, none, none, some [["a", "b", "c", "d", "e", "f", "dt", "x"]], []⟩ =
      some ([[Cell.s "dt", Cell.s "e"]].flatten ++
        List.replicate ((2 - 1) * (1 + 1)) Cell.missing) ∧
    ([[Cell.s "dt", Cell.s "e"]] : List (List Cell)).length =
      ([["a", "b", "c", "d", "e", "f", "dt", "x"]] : List (List String)).length :=
  (C4_padding_policy [4] false idQ pfSmall).1 2 _
    [["a", "b", "c", "d", "e", "f", "dt", "x"]] [[Cell.s "dt", Cell.s "e"]]
    rfl (by decide) (by decide)

/-! ## Lemmas about the source loaders (claim C5) -/

/-- `load_demo`'s row step never creates or removes a store entry. -/
theorem demo_step_keys {s : Store} {row : List String} {s' : Store}
    (h : demo_step s row = some s') : storeKeys s' = storeKeys s := by
  simp only [demo_step] at h
  cases h1 : row[1]? with
  | none => rw [h1] at h; exact absurd h (by simp)
  | some id =>
    rw [h1] at h
    simp only [Option.bind_eq_bind', Option.some_bind'] at h
    cases hl : store_lookup s id with
    | none =>
      rw [hl] at h
      simp only [Option.pure_def, Option.some.injEq] at h
      subst h
      rfl
    | some p =>
      rw [hl] at h
      cases h3 : row[3]? with
      | none => rw [h3] at h; exact absurd h (by simp)
      | some sex =>
        rw [h3] at h
        cases h7 : row[7]? with
        | none => rw [h7] at h; exact absurd h (by simp)
        | some outc =>
          rw [h7] at h
          simp only [Option.some_bind, Option.pure_def, Option.some.injEq] at h
          subst h
          exact storeKeys_update s id _

/-- `load_demo` preserves the key list of the store. -/
theorem load_demo_keys :
    ∀ {rows : List (List String)} {s s' : Store},
      load_demo s rows = some s' → storeKeys s' = storeKeys s := by
  intro rows
  induction rows with
  | nil =>
    intro s s' h
    simp only [load_demo, Option.some.injEq] at h
    subst h
    rfl
  | cons row rest ih =>
    intro s s' h
    simp only [load_demo] at h
    cases hstep : demo_step s row with
    | none => rw [hstep] at h; exact absurd h (by simp)
    | some s1 =>
      rw [hstep] at h
      exact (ih h).trans (demo_step_keys hstep)

/-- `load_case`'s row step never creates or removes a store entry. -/
theorem case_step_keys {s : Store} {row : List String} {s' : Store}
    (h : case_step s row = some s') : storeKeys s' = storeKeys s := by
  simp only [case_step] at h
  cases h0 : row[0]? with
  | none => rw [h0] at h; exact absurd h (by simp)
  | some id =>
    rw [h0] at h
    simp only [Option.bind_eq_bind', Option.some_bind'] at h
    cases hl : store_lookup s id with
    | none =>
      rw [hl] at h
      simp only [Option.pure_def, Option.some.injEq] at h
      subst h
      rfl
    | some p =>
      rw [hl] at h
      simp only [Option.pure_def, Option.some.injEq] at h
      subst h
      exact storeKeys_update s id _

/-- `load_case` preserves the key list of the store. -/
theorem load_case_keys :
    ∀ {rows : List (List String)} {s s' : Store},
      load_case s rows = some s' → storeKeys s' = storeKeys s := by
  intro rows
  induction rows with
  | nil =>
    intro s s' h
    simp only [load_case, Option.some.injEq] at h
    subst h
    rfl
  | cons row rest ih =>
    intro s s' h
    simp only [load_case] at h
    cases hstep : case_step s row with
    | none => rw [hstep] at h; exact absurd h (by simp)
    | some s1 =>
      rw [hstep] at h
      exact (ih h).trans (case_step_keys hstep)

/-- `load_pico_data`'s row step never creates or removes a store entry. -/
theorem pico_step_keys {s : Store} {row : List String} {s' : Store}
    (h : pico_step s row = some s') : storeKeys s' = storeKeys s := by
  simp only [pico_step] at h
  cases h3 : row[3]? with
  | none => rw [h3] at h; exact absurd h (by simp)
  | some id =>
    rw [h3] at h
    simp only [Option.bind_eq_bind', Option.some_bind'] at h
    cases hl : store_lookup s id with
    | none =>
      rw [hl] at h
      simp only [Option.pure_def, Option.some.injEq] at h
      subst h
      rfl
    | some p =>
      rw [hl] at h
      cases hp : p.pico with
      | none =>
        simp only [hp, Option.pure_def, Option.some.injEq] at h
        subst h
        exact storeKeys_update s id _
      | some series =>
        simp only [hp, Option.pure_def, Option.some.injEq] at h
        subst h
        exact storeKeys_update s id _

/-- `load_pico_data` preserves the key list of the store. -/
theorem load_pico_data_keys :
    ∀ {rows : List (List String)} {s s' : Store},
      load_pico_data s rows = some s' → storeKeys s' = storeKeys s := by
  intro rows
  induction rows with
  | nil =>
    intro s s' h
    simp only [load_pico_data, Option.some.injEq] at h
    subst h
    rfl
  | cons row rest ih =>
    intro s s' h
    simp only [load_pico_data] at h
    cases hstep : pico_step s row with
    | none => rw [hstep] at h; exact absurd h (by simp)
    | some s1 =>
      rw [hstep] at h
      exact (ih h).trans (pico_step_keys hstep)

/-- One master row adds exactly the identifiers it creates (non-ignored,
non-empty disease group) to the store's key set. -/
theorem master_step_mem {ignore_id : List String} {s : Store} {row : List String}
    {s' : Store} (h : master_step ignore_id s row = some s') (id : String) :
    (id ∈ storeKeys s' ↔ id ∈ storeKeys s ∨ master_row_creates ignore_id row id) := by
  simp only [master_step] at h
  cases h1 : row[1]? with
  | none => rw [h1] at h; exact absurd h (by simp)
  | some rid =>
    rw [h1] at h
    simp only [Option.bind_eq_bind', Option.some_bind'] at h
    by_cases hig : rid ∈ ignore_id
    · rw [if_pos hig] at h
      simp only [Option.pure_def, Option.some.injEq] at h
      subst h
      simp only [master_row_creates, h1, Option.some.injEq]
      constructor
      · exact Or.inl
      · rintro (hm | ⟨heq, hni, _⟩)
        · exact hm
        · exact absurd (heq ▸ hig) hni
    · rw [if_neg hig] at h
      cases h3 : row[3]? with
      | none => rw [h3] at h; exact absurd h (by simp)
      | some idx =>
        rw [h3] at h
        cases h5 : row[5]? with
        | none => rw [h5] at h; exact absurd h (by simp)
        | some date =>
          rw [h5] at h
          cases h8 : row[8]? with
          | none => rw [h8] at h; exact absurd h (by simp)
          | some vload =>
            rw [h8] at h
            cases h9 : row[9]? with
            | none => rw [h9] at h; exact absurd h (by simp)
            | some result =>
              rw [h9] at h
              cases h10 : row[10]? with
              | none => rw [h10] at h; exact absurd h (by simp)
              | some group =>
                rw [h10] at h
                simp only [Option.bind_eq_bind', Option.some_bind'] at h
                by_cases hg : group = ""
                · rw [if_pos hg] at h
                  simp only [Option.pure_def, Option.some.injEq] at h
                  subst h
                  simp only [master_row_creates, h1, h10, Option.some.injEq, Option.getD_some]
                  constructor
                  · exact Or.inl
                  · rintro (hm | ⟨_, _, hgr⟩)
                    · exact hm
                    · exact absurd hg hgr
                · rw [if_neg hg] at h
                  cases hl : store_lookup s rid with
                  | some p =>
                    rw [hl] at h
                    simp only [Option.pure_def, Option.some.injEq] at h
                    subst h
                    rw [storeKeys_update]
                    have hmem : rid ∈ storeKeys s := by
                      by_contra hc
                      rw [← store_lookup_eq_none_iff] at hc
                      rw [hc] at hl
                      exact Option.noConfusion hl
                    simp only [master_row_creates, h1, h10, Option.some.injEq, Option.getD_some]
                    constructor
                    · exact Or.inl
                    · rintro (hm | ⟨heq, _, _⟩)
                      · exact hm
                      · exact heq ▸ hmem
                  | none =>
                    rw [hl] at h
                    simp only [Option.pure_def, Option.some.injEq] at h
                    subst h
                    simp only [storeKeys, List.map_append, List.map_cons, List.map_nil,
                      List.mem_append, List.mem_cons, List.not_mem_nil, or_false]
                    simp only [master_row_creates, h1, h10, Option.some.injEq, Option.getD_some]
                    constructor
                    · rintro (hm | heq)
                      · exact Or.inl hm
                      · exact Or.inr ⟨heq.symm, heq ▸ hig, hg⟩
                    · rintro (hm | ⟨heq, _, _⟩)
                      · exact Or.inl hm
                      · exact Or.inr heq.symm

/-- An identifier is in the store after `load_master` iff it was there
before or some processed row creates it. -/
theorem load_master_mem {ignore_id : List String} :
    ∀ {rows : List (List String)} {s s' : Store},
      load_master ignore_id s rows = some s' →
      ∀ id, (id ∈ storeKeys s' ↔
        id ∈ storeKeys s ∨ ∃ row ∈ rows, master_row_creates ignore_id row id) := by
  intro rows
  induction rows with
  | nil =>
    intro s s' h id
    simp only [load_master, Option.some.injEq] at h
    subst h
    simp
  | cons row rest ih =>
    intro s s' h id
    simp only [load_master] at h
    cases hstep : master_step ignore_id s row with
    | none => rw [hstep] at h; exact absurd h (by simp)
    | some s1 =>
      rw [hstep] at h
      rw [ih h id, master_step_mem hstep id]
      simp only [List.exists_mem_cons_iff]
      tauto

/-! ## Claim C5 — the master table is authoritative -/

/-- Claim C5: after the four loaders run, an identifier has a record in the
store iff it appears in the master table (column 1 of some row), is not on
the ignore list, and that row's disease-group cell (column 10) is
non-empty; the demographics, case-notification and metabolic-panel loaders
never create a record, so an identifier absent from the master table never
appears in any output row regardless of its presence in those sources. -/
theorem C5_master_is_authoritative (ignore_id : List String)
    (master_rows demo_rows case_rows pico_rows : List (List String)) (s : Store)
    (h : load_sources ignore_id master_rows demo_rows case_rows pico_rows = some s)
    (id : String) :
    id ∈ storeKeys s ↔
      (id ∉ ignore_id ∧
        ∃ row ∈ master_rows, row[1]? = some id ∧ (row[10]?).getD "" ≠ "") := by
  simp only [load_sources] at h
  cases h1 : load_master ignore_id [] master_rows with
  | none => rw [h1] at h; exact absurd h (by simp)
  | some s1 =>
    rw [h1] at h
    simp only [Option.bind_eq_bind', Option.some_bind'] at h
    cases h2 : load_demo s1 demo_rows with
    | none => rw [h2] at h; exact absurd h (by simp)
    | some s2 =>
      rw [h2] at h
      simp only [Option.bind_eq_bind', Option.some_bind'] at h
      cases h3 : load_case s2 case_rows with
      | none => rw [h3] at h; exact absurd h (by simp)
      | some s3 =>
        rw [h3] at h
        simp only [Option.bind_eq_bind', Option.some_bind'] at h
        cases h4 : load_pico_data s3 pico_rows with
        | none => rw [h4] at h; exact absurd h (by simp)
        | some s4 =>
          rw [h4] at h
          simp only [Option.bind_eq_bind', Option.some_bind', Option.pure_def,
            Option.some.injEq] at h
          subst h
          rw [load_pico_data_keys h4, load_case_keys h3, load_demo_keys h2,
            load_master_mem h1 id]
          simp only [storeKeys, List.map_nil, List.not_mem_nil, false_or,
            master_row_creates]
          constructor
          · rintro ⟨row, hrow, hid, hni, hg⟩
            exact ⟨hni, row, hrow, hid, hg⟩
          · rintro ⟨hni, row, hrow, hid, hg⟩
            exact ⟨row, hrow, hid, hni, hg⟩

/-- C5 witness: one master row creates the record for `A-1`; the ignore
list holds `B-9`; no demographics/case/panel rows are needed. -/
theorem C5_witness :
    "A-1" ∈ storeKeys [("A-1", ⟨"Epos", none, none, none, none, none, [⟨"1", "d1", "100"⟩]⟩)] :=
  (C5_master_is_authoritative ["B-9"]
      [["r", "A-1", "", "1", "", "d1", "", "", "100", "P", "Epos"]] [] [] []
      [("A-1", ⟨"Epos", none, none, none, none, none, [⟨"1", "d1", "100"⟩]⟩)]
      (by decide) "A-1").mpr
    ⟨by decide, ["r", "A-1", "", "1", "", "d1", "", "", "100", "P", "Epos"], by decide,
      by decide, by decide⟩

/-! ## Length lemmas for the aggregation phases (claim C3) -/

/-- The demographics phase appends `2 + |demo_dict|` cells. -/
theorem add_demo_row_length {demo_dict : List (Int × DictEntry)} {id : String}
    {p : PatientData} {r : List Cell} (h : add_demo_row demo_dict id p = some r) :
    r.length = 2 + demo_dict.length := by
  simp only [add_demo_row] at h
  cases hm : optMapM (fun ce => demo_val p ce.1 ce.2) demo_dict with
  | none => rw [hm] at h; exact absurd h (by simp)
  | some cells =>
    rw [hm] at h
    simp only [Option.bind_eq_bind', Option.some_bind', Option.pure_def,
      Option.some.injEq] at h
    subst h
    simp only [List.length_cons, optMapM_length _ hm]
    omega

/-- The case-notification phase appends `|case_dict|` cells. -/
theorem add_case_row_length {case_dict : List (Int × DictEntry)} {p : PatientData}
    {r : List Cell} (h : add_case_row case_dict p = some r) :
    r.length = case_dict.length := by
  exact optMapM_length _ h

/-- One metabolic-panel block is one date cell plus one cell per analyte. -/
theorem pico_block_length {cols : List Int} {prow : List String} {b : List Cell}
    (h : pico_block cols prow = some b) : b.length = 1 + cols.length := by
  simp only [pico_block] at h
  cases hd : pyGet prow 6 with
  | none => rw [hd] at h; exact absurd h (by simp)
  | some d =>
    rw [hd] at h
    cases hv : optMapM (fun c => pyGet prow c) cols with
    | none => rw [hv] at h; exact absurd h (by simp)
    | some vals =>
      rw [hv] at h
      simp only [Option.bind_eq_bind', Option.some_bind', Option.pure_def,
        Option.some.injEq] at h
      subst h
      simp only [List.length_cons, List.length_map, optMapM_length _ hv]
      omega

/-- The concatenated blocks of a series have `len * (1 + |cols|)` cells. -/
theorem pico_blocks_flatten_length {cols : List Int} :
    ∀ {series : List (List String)} {blocks : List (List Cell)},
      optMapM (pico_block cols) series = some blocks →
      blocks.flatten.length = series.length * (1 + cols.length) := by
  intro series
  induction series with
  | nil =>
    intro blocks h
    simp only [optMapM, Option.some.injEq] at h
    subst h
    simp
  | cons prow rest ih =>
    intro blocks h
    simp only [optMapM] at h
    cases hb : pico_block cols prow with
    | none => rw [hb] at h; exact absurd h (by simp)
    | some b =>
      rw [hb] at h
      cases hm : optMapM (pico_block cols) rest with
      | none => rw [hm] at h; exact absurd h (by simp)
      | some bs =>
        rw [hm] at h
        simp only [Option.some.injEq] at h
        subst h
        simp only [List.flatten_cons, List.length_append, List.length_cons]
        rw [ih hm, pico_block_length hb]
        ring

/-- The metabolic-panel phase appends `max_len * (1 + |cols|)` cells
whenever the patient's series is no longer than the maximum. -/
theorem add_pico_row_length {cols : List Int} {mp : ℕ} {p : PatientData} {r : List Cell}
    (h : add_pico_row cols mp p = some r)
    (hk : (p.pico.getD []).length ≤ mp) :
    r.length = mp * (1 + cols.length) := by
  by_cases ht : truthyOptList p.pico = true
  · rw [add_pico_row, if_pos ht] at h
    cases hm : optMapM (pico_block cols) (p.pico.getD []) with
    | none => exact absurd h (by simp [hm])
    | some blocks =>
      simp only [hm, Option.bind_eq_bind', Option.some_bind', Option.pure_def,
        Option.some.injEq] at h
      subst h
      simp only [List.length_append, List.length_replicate]
      rw [pico_blocks_flatten_length hm]
      have hmul : (p.pico.getD []).length * (1 + cols.length) ≤ mp * (1 + cols.length) :=
        Nat.mul_le_mul_right _ hk
      omega
  · rw [add_pico_row, if_neg ht] at h
    simp only [Option.some.injEq] at h
    subst h
    simp

/-- The four summary cells are always four cells. -/
theorem qpcr_derived_cells_length (acc : QpcrAcc) : (qpcr_derived_cells acc).length = 4 := by
  rw [qpcr_derived_cells]
  by_cases h : pyTruthyQ acc.first = true
  · rw [if_pos h]; rfl
  · rw [if_neg h]; rfl

/-- The emitted slot cells are two per (mutated) series entry. -/
theorem slot_flatten_length (ms : List MReading) :
    ((ms.map (fun r => [Cell.s r.date, r.value])).flatten).length = 2 * ms.length := by
  induction ms with
  | nil => rfl
  | cons r rs ih =>
    simp only [List.map_cons, List.flatten_cons, List.length_append, ih, List.length_cons]
    simp
    ring

/-- The qPCR phase appends `4 + max_len * 2` cells whenever the patient's
series is no longer than the maximum. -/
theorem add_qpcr_row_length {logMode : Bool} {t : ℚ → ℚ} {pf : String → Option ℚ}
    {mq : ℕ} {p : PatientData} {r : List Cell}
    (h : add_qpcr_row logMode t pf mq p = some r) (hk : p.qpcr.length ≤ mq) :
    r.length = 4 + mq * 2 := by
  by_cases hne : p.qpcr ≠ []
  · rw [add_qpcr_row, if_pos hne] at h
    cases hloop : qpcr_loop1 logMode t pf (⟨none, none, none, none, 0⟩, []) p.qpcr with
    | none => rw [hloop] at h; exact absurd h (by simp)
    | some st =>
      obtain ⟨acc, ms⟩ := st
      simp only [hloop, Option.some.injEq] at h
      subst h
      have hms := qpcr_loop1_snd logMode t pf hloop
      simp only [List.nil_append] at hms
      have hlen : ms.length = p.qpcr.length := by rw [hms, List.length_map]
      unfold qpcr_slot_cells
      rw [qpcr_slot_cells_eq, List.nil_append]
      simp only [List.length_append, List.length_replicate, qpcr_derived_cells_length,
        slot_flatten_length, hlen]
      omega
  · rw [add_qpcr_row, if_neg hne] at h
    simp only [Option.some.injEq] at h
    subst h
    simp

/-- The sequencing phase appends one cell per sequencing variable. -/
theorem add_seq_row_length (seq_maps : List (String × List (String × String)))
    (id : String) : (add_seq_row seq_maps id).length = seq_maps.length := by
  simp [add_seq_row]

/-- The fold computing the metabolic-panel maximum never decreases. -/
theorem pico_foldl_le (s : Store) :
    ∀ a : ℕ,
      a ≤ s.foldl
        (fun m e => if truthyOptList e.2.pico then max m (e.2.pico.getD []).length else m)
        a := by
  induction s with
  | nil => intro a; exact le_refl a
  | cons e t ih =>
    intro a
    simp only [List.foldl_cons]
    refine le_trans ?_ (ih _)
    by_cases h : truthyOptList e.2.pico = true
    · rw [if_pos h]; exact le_max_left _ _
    · rw [if_neg h]

/-- Every patient's metabolic-panel series is bounded by the fold. -/
theorem length_le_pico_foldl :
    ∀ (s : Store) (a : ℕ) (x : String × PatientData), x ∈ s →
      (x.2.pico.getD []).length ≤
        s.foldl
          (fun m e => if truthyOptList e.2.pico then max m (e.2.pico.getD []).length else m)
          a := by
  intro s
  induction s with
  | nil => intro a x hm; simp at hm
  | cons e t ih =>
    intro a x hm
    simp only [List.foldl_cons]
    rcases List.mem_cons.mp hm with rfl | hm'
    · by_cases h : truthyOptList x.2.pico = true
      · refine le_trans ?_ (pico_foldl_le t _)
        rw [if_pos h]
        exact le_max_right _ _
      · have hz : (x.2.pico.getD []).length = 0 := by
          cases hp : x.2.pico with
          | none => rfl
          | some l =>
            cases l with
            | nil => rfl
            | cons y ys => rw [hp] at h; exact absurd rfl h
        rw [hz]
        exact Nat.zero_le _
    · exact ih _ x hm'

/-- Every patient's metabolic-panel series is bounded by the global
maximum. -/
theorem length_le_pico_max_len {s : Store} {x : String × PatientData} (hm : x ∈ s) :
    (x.2.pico.getD []).length ≤ pico_max_len s :=
  length_le_pico_foldl s 0 x hm

/-- The fold computing the qPCR maximum never decreases. -/
theorem qpcr_foldl_le (s : Store) :
    ∀ a : ℕ,
      a ≤ s.foldl (fun m e => if e.2.qpcr ≠ [] then max m e.2.qpcr.length else m) a := by
  induction s with
  | nil => intro a; exact le_refl a
  | cons e t ih =>
    intro a
    simp only [List.foldl_cons]
    refine le_trans ?_ (ih _)
    by_cases h : e.2.qpcr ≠ []
    · rw [if_pos h]; exact le_max_left _ _
    · rw [if_neg h]

/-- Every patient's qPCR series is bounded by the fold. -/
theorem length_le_qpcr_foldl :
    ∀ (s : Store) (a : ℕ) (x : String × PatientData), x ∈ s →
      x.2.qpcr.length ≤
        s.foldl (fun m e => if e.2.qpcr ≠ [] then max m e.2.qpcr.length else m) a := by
  intro s
  induction s with
  | nil => intro a x hm; simp at hm
  | cons e t ih =>
    intro a x hm
    simp only [List.foldl_cons]
    rcases List.mem_cons.mp hm with rfl | hm'
    · by_cases h : x.2.qpcr ≠ []
      · refine le_trans ?_ (qpcr_foldl_le t _)
        rw [if_pos h]
        exact le_max_right _ _
      · rw [not_not] at h
        rw [h]
        exact Nat.zero_le _
    · exact ih _ x hm'

/-- Every patient's qPCR series is bounded by the global maximum. -/
theorem length_le_qpcr_max_len {s : Store} {x : String × PatientData} (hm : x ∈ s) :
    x.2.qpcr.length ≤ qpcr_max_len s :=
  length_le_qpcr_foldl s 0 x hm

/-- The metabolic-panel schema declares `max_len * (1 + |names|)` columns. -/
theorem add_pico_vars_length (names : List String) :
    ∀ mp : ℕ, (add_pico_vars names mp).length = mp * (1 + names.length) := by
  intro mp
  induction mp with
  | zero => simp [add_pico_vars]
  | succ n ih =>
    simp only [add_pico_vars, List.length_append, List.length_cons, List.length_map, ih]
    ring

/-- The qPCR day schema declares `max_len * 2` columns. -/
theorem add_qpcr_day_vars_length :
    ∀ mq : ℕ, (add_qpcr_day_vars mq).length = mq * 2 := by
  intro mq
  induction mq with
  | zero => rfl
  | succ n ih =>
    simp only [add_qpcr_day_vars, List.length_append, ih]
    simp
    ring

/-- The total declared-variable count. -/
theorem all_variables_length (seq_flag : Bool) (dd cd : List (Int × DictEntry))
    (names : List String) (mp mq : ℕ)
    (sm : List (String × List (String × String))) :
    (all_variables seq_flag dd cd names mp mq sm).length =
      (2 + dd.length) + cd.length + mp * (1 + names.length) + (4 + mq * 2) +
        (if seq_flag then sm.length else 0) := by
  simp only [all_variables, add_demo_vars, add_case_vars, add_qpcr_vars,
    List.length_append, List.length_cons, List.length_map, add_pico_vars_length,
    add_qpcr_day_vars_length]
  by_cases hs : seq_flag = true
  · rw [if_pos hs, if_pos hs]
    simp
    ring
  · rw [if_neg hs, if_neg hs]
    simp
    ring

/-- The width of one patient's full output row. -/
theorem aggregate_row_length {seq_flag log_flag : Bool} {t : ℚ → ℚ}
    {pf : String → Option ℚ} {dd cd : List (Int × DictEntry)} {cols : List Int}
    {mp mq : ℕ} {sm : List (String × List (String × String))} {id : String}
    {p : PatientData} {r : List Cell}
    (h : aggregate_row seq_flag log_flag t pf dd cd cols mp mq sm id p = some r)
    (hp : (p.pico.getD []).length ≤ mp) (hq : p.qpcr.length ≤ mq) :
    r.length = (2 + dd.length) + cd.length + mp * (1 + cols.length) + (4 + mq * 2) +
      (if seq_flag then sm.length else 0) := by
  simp only [aggregate_row] at h
  cases h1 : add_demo_row dd id p with
  | none => rw [h1] at h; exact absurd h (by simp)
  | some drow =>
    rw [h1] at h
    simp only [Option.bind_eq_bind', Option.some_bind'] at h
    cases h2 : add_case_row cd p with
    | none => rw [h2] at h; exact absurd h (by simp)
    | some crow =>
      rw [h2] at h
      simp only [Option.bind_eq_bind', Option.some_bind'] at h
      cases h3 : add_pico_row cols mp p with
      | none => rw [h3] at h; exact absurd h (by simp)
      | some prow =>
        rw [h3] at h
        simp only [Option.bind_eq_bind', Option.some_bind'] at h
        cases h4 : add_qpcr_row log_flag t pf mq p with
        | none => rw [h4] at h; exact absurd h (by simp)
        | some qrow =>
          rw [h4] at h
          simp only [Option.bind_eq_bind', Option.some_bind'] at h
          by_cases hs : seq_flag = true
          · rw [if_pos hs] at h
            rw [if_pos hs]
            simp only [Option.pure_def, Option.some.injEq] at h
            subst h
            simp only [List.length_append, add_demo_row_length h1,
              add_case_row_length h2, add_pico_row_length h3 hp,
              add_qpcr_row_length h4 hq, add_seq_row_length]
          · rw [if_neg hs] at h
            rw [if_neg hs]
            simp only [Option.pure_def, Option.some.injEq] at h
            subst h
            simp only [List.length_append, add_demo_row_length h1,
              add_case_row_length h2, add_pico_row_length h3 hp,
              add_qpcr_row_length h4 hq]
            omega

/-! ## Claim C3 — all output rows have the declared width -/

/-- Claim C3: when the aggregation completes, every patient row of the
output mapping has exactly one cell per declared variable — all rows have
the same width, equal to the length of the process-wide variable list —
regardless of how many demographics, case-notification, metabolic-panel or
qPCR records each patient has.  `pico_vars` pairs each panel analyte name
with its source column, as `load_pico_info` does. -/
theorem C3_uniform_row_width (seq_flag log_flag : Bool) (t : ℚ → ℚ)
    (pf : String → Option ℚ) (demo_dict case_dict : List (Int × DictEntry))
    (pico_vars : List (String × Int))
    (seq_maps : List (String × List (String × String))) (s : Store)
    (rows : List (String × List Cell))
    (h : aggregate_all seq_flag log_flag t pf demo_dict case_dict
      (pico_vars.map Prod.snd) seq_maps s = some rows) :
    ∀ e ∈ rows, e.2.length =
      (all_variables seq_flag demo_dict case_dict (pico_vars.map Prod.fst)
        (pico_max_len s) (qpcr_max_len s) seq_maps).length := by
  intro e he
  obtain ⟨a, ha, hfa⟩ := optMapM_mem _ h e he
  cases hr : aggregate_row seq_flag log_flag t pf demo_dict case_dict
      (pico_vars.map Prod.snd) (pico_max_len s) (qpcr_max_len s) seq_maps a.1 a.2 with
  | none => rw [hr] at hfa; exact absurd hfa (by simp)
  | some r =>
    rw [hr] at hfa
    simp only [Option.map_some', Option.some.injEq] at hfa
    subst hfa
    have hp : (a.2.pico.getD []).length ≤ pico_max_len s := length_le_pico_max_len ha
    have hq : a.2.qpcr.length ≤ qpcr_max_len s := length_le_qpcr_max_len ha
    rw [aggregate_row_length hr hp hq, all_variables_length]
    simp [List.length_map]

/-- C3 witness: one patient with a one-reading qPCR series, no panel and no
case data, one SNP variable — the single output row has the width of the
variable list (9 columns). -/
theorem C3_witness :
    (("A-1", [Cell.s "A-1", Cell.s "1", Cell.missing, Cell.missing, Cell.missing,
        Cell.missing, Cell.s "d1", Cell.s "", Cell.s "1"]) : String × List Cell).2.length =
      (all_variables true [] [] ([("SNP1", 4)].map Prod.fst)
        (pico_max_len [("A-1", ⟨"Epos", none, none, none, none, none, [⟨"1", "d1", ""⟩]⟩)])
        (qpcr_max_len [("A-1", ⟨"Epos", none, none, none, none, none, [⟨"1", "d1", ""⟩]⟩)])
        [("SNP1", [("A-1", "1")])]).length := by
  have h := C3_uniform_row_width true false idQ pfSmall [] [] [("SNP1", 4)]
    [("SNP1", [("A-1", "1")])]
    [("A-1", ⟨"Epos", none, none, none, none, none, [⟨"1", "d1", ""⟩]⟩)]
    [("A-1", [Cell.s "A-1", Cell.s "1", Cell.missing, Cell.missing, Cell.missing,
      Cell.missing, Cell.s "d1", Cell.s "", Cell.s "1"])]
    (by decide)
  exact h _ (by decide)

end Makemira
